import Mathlib

/-!
Verification development for the oraiswap limit-order (CLOB) contract.

Shallow embedding of the matching engine and its storage layer:
  - src/contracts/oraiswap_limit_order/src/order.rs   (excecute_pair, cancel_order, fees)
  - src/contracts/oraiswap_limit_order/src/state.rs   (store_order, remove_order,
    read_orders_with_indexer, calc_range_start / calc_range_end)

The repository snapshot does not contain `orderbook.rs` (the Order methods
`get_price`, `fill_order`, the tick scans `find_list_match_price`,
`find_match_orders`) nor `math.rs` (`Truncate.to_string_round`).  Those
definitions are modelled from the specification and carry a doc comment
starting with `Modelled from the spec:`.

Machine integers: all Uint128 amounts are embedded as `Nat` (the contract
aborts on overflow/underflow, so the executions modelled here never wrap);
`Decimal` values are embedded as their `Nat` atomics with 18 fractional
digits, products and quotients take explicit floors exactly as
`Uint128 * Decimal`, `checked_div` and `Decimal::from_ratio` do.
-/

/-- Atomics of `Decimal::one()`: 10^18. -/
def atomics18 : Nat := 1000000000000000000

/-- Atomics of `Decimal::from_str("0.001")`, the hard-coded commission rate. -/
def commissionAtomics : Nat := 1000000000000000

/-- Flat relayer fee constant `RELAY_FEE = 300` from order.rs. -/
def relayFeeConst : Nat := 300

/-- Reward-disbursement threshold `1_000_000` from `transfer_reward`. -/
def rewardThreshold : Nat := 1000000

/-- Floor semantics of `Uint128 * Decimal` in cosmwasm: `a * p.atomics / 10^18`. -/
def mulDec (a p : Nat) : Nat := a * p / atomics18

/-- Embedding of `Uint128::checked_div`: `None` on a zero divisor, which the
matcher immediately unwraps — the panic aborts the entire call. -/
def checkedDiv (a b : Nat) : Option Nat :=
  if b = 0 then none else some (a / b)

/-- Total projection of `Uint128::from(a * Decimal::one().atomics())
.checked_div(p.atomics()).unwrap()` used by the loop model: `Nat` division
with `x / 0 = 0`.  The contract has no value at a zero divisor — it panics
and the whole call aborts — so theorems about a single step carry a nonzero
match-price hypothesis where that matters; `checkedDiv` and
`match_amounts_checked` record the fallible behaviour itself. -/
def divDec (a p : Nat) : Nat := a * atomics18 / p

/-- Order direction, from oraiswap::limit_order. -/
inductive OrderDirection where
  | Buy : OrderDirection
  | Sell : OrderDirection
deriving DecidableEq, Repr

/-- Order status, from oraiswap::limit_order. -/
inductive OrderStatus where
  | Open : OrderStatus
  | PartialFilled : OrderStatus
  | Fulfilled : OrderStatus
  | Cancel : OrderStatus
deriving DecidableEq, Repr

/-- An order row, from the Order struct used throughout order.rs.  Addresses
are embedded as naturals (only equality on them is used by the engine). -/
structure Order where
  order_id : Nat
  direction : OrderDirection
  bidder_addr : Nat
  offer_amount : Nat
  ask_amount : Nat
  filled_offer_amount : Nat
  filled_ask_amount : Nat
  status : OrderStatus
deriving DecidableEq, Repr

/-- Modelled from the spec: `Order::get_price` lives in the missing
orderbook.rs.  Spec 3.1 and 4.2: price is `ask_amount / offer_amount` for a
Buy order and `offer_amount / ask_amount` for a Sell order, computed as a
`Decimal` ratio with floor (`Decimal::from_ratio`). -/
def get_price (o : Order) : Nat :=
  match o.direction with
  | OrderDirection.Buy => o.ask_amount * atomics18 / o.offer_amount
  | OrderDirection.Sell => o.offer_amount * atomics18 / o.ask_amount

/-- Modelled from the spec: the tick key of an order.  state.rs derives it by
`get_price().to_string_round(FLOATING_ROUND)` with `FLOATING_ROUND = 3`; the
`Truncate` trait lives in the missing math.rs, so the rounding (truncation to
3 decimal places of the price) is modelled from the spec, as the numeric
value it denotes. -/
def tickKey (o : Order) : Nat :=
  get_price o / 1000000000000000 * 1000000000000000

/-- Remaining (unfilled) offer balance of an order. -/
def remOffer (o : Order) : Nat := o.offer_amount - o.filled_offer_amount

/-! ## Storage layer (state.rs)

Buckets are embedded as association lists.  `ticks` maps a price key to the
stored tick counter (absence of the key models a deleted counter entry);
`byPrice` and `byBidder` are the value-less enumeration sets keyed by
(price key, order id) and (bidder, order id).  `byDirection` is the
`PREFIX_ORDER_BY_DIRECTION` family referenced by the query surface in
order.rs; the store/remove functions of state.rs never write to it. -/

structure IdxState where
  orders : List Order
  ticks : List (Nat × Nat)
  byPrice : List (Nat × Nat)
  byBidder : List (Nat × Nat)
  byDirection : List (OrderDirection × Nat)
deriving DecidableEq, Repr

/-- Point lookup in an association list (bucket `load`). -/
def lookupAssoc (l : List (Nat × Nat)) (k : Nat) : Option Nat :=
  (l.find? (fun e => e.1 = k)).map (fun e => e.2)

/-- Bucket `save` for the tick counter: overwrite the value at a key. -/
def setAssoc (l : List (Nat × Nat)) (k v : Nat) : List (Nat × Nat) :=
  (k, v) :: l.filter (fun e => e.1 ≠ k)

/-- Bucket `remove` for the tick counter: delete the entry at a key. -/
def delAssoc (l : List (Nat × Nat)) (k : Nat) : List (Nat × Nat) :=
  l.filter (fun e => e.1 ≠ k)

/-- Enumeration-set `save`: insert a (key, order id) pair if absent. -/
def insertPair (l : List (Nat × Nat)) (p : Nat × Nat) : List (Nat × Nat) :=
  if p ∈ l then l else p :: l

/-- Enumeration-set `remove`: delete a (key, order id) pair. -/
def erasePair (l : List (Nat × Nat)) (p : Nat × Nat) : List (Nat × Nat) :=
  l.filter (fun e => e ≠ p)

/-- Point lookup of an order row by id (`read_order`). -/
def findOrder (l : List Order) (id : Nat) : Option Order :=
  l.find? (fun o => o.order_id = id)

/-- Bucket `save` of an order row: overwrite the row keyed by the order id. -/
def putOrder (l : List Order) (o : Order) : List Order :=
  o :: l.filter (fun x => x.order_id ≠ o.order_id)

/-- Bucket `remove` of an order row. -/
def delOrder (l : List Order) (id : Nat) : List Order :=
  l.filter (fun x => x.order_id ≠ id)

/-- Embedding of `store_order` (state.rs lines 27-73): saves the order row,
bumps (when `inserted`) and re-saves the tick counter, and inserts the
by-price and by-bidder index entries.  No by-direction entry is written. -/
def store_order (s : IdxState) (o : Order) (inserted : Bool) : IdxState :=
  let pk := tickKey o
  let total := (lookupAssoc s.ticks pk).getD 0 + (if inserted then 1 else 0)
  { orders := putOrder s.orders o
    ticks := setAssoc s.ticks pk total
    byPrice := insertPair s.byPrice (pk, o.order_id)
    byBidder := insertPair s.byBidder (o.bidder_addr, o.order_id)
    byDirection := s.byDirection }

/-- Embedding of `remove_order` (state.rs lines 75-118): deletes the order
row, decrements the tick counter (deleting the entry when it reaches zero),
and deletes the by-price and by-bidder index entries.  The by-direction
family is not touched. -/
def remove_order (s : IdxState) (o : Order) : IdxState :=
  let pk := tickKey o
  let total := (lookupAssoc s.ticks pk).getD 0
  { orders := delOrder s.orders o.order_id
    ticks :=
      if total > 0 then
        if total - 1 > 0 then setAssoc s.ticks pk (total - 1)
        else delAssoc s.ticks pk
      else s.ticks
    byPrice := erasePair s.byPrice (pk, o.order_id)
    byBidder := erasePair s.byBidder (o.bidder_addr, o.order_id)
    byDirection := s.byDirection }

/-- Error kinds surfaced by the lifecycle operations modelled here. -/
inductive CError where
  | Unauthorized : CError
  | OrderNotFound : CError
  | Underflow : CError
deriving DecidableEq, Repr

/-- Which of the pair's two assets a transfer denominates. -/
inductive AssetTag where
  | base : AssetTag
  | quote : AssetTag
deriving DecidableEq, Repr

/-- An outgoing transfer message: recipient address, asset, amount. -/
structure Msg where
  recipient : Nat
  tag : AssetTag
  amount : Nat
deriving DecidableEq, Repr

/-- Embedding of `cancel_order` (order.rs lines 82-142): only the bidder may
cancel; the refund is `offer_amount - filled_offer_amount` denominated in the
quote asset for a Buy order and the base asset for a Sell order; a zero
refund emits no message; the order is removed via `remove_order`. -/
def cancel_order (s : IdxState) (sender : Nat) (order_id : Nat) :
    Except CError (List Msg × IdxState) :=
  match findOrder s.orders order_id with
  | none => Except.error CError.OrderNotFound
  | some o =>
    if o.bidder_addr ≠ sender then Except.error CError.Unauthorized
    else if o.offer_amount < o.filled_offer_amount then Except.error CError.Underflow
    else
      let refund := o.offer_amount - o.filled_offer_amount
      let tag := match o.direction with
        | OrderDirection.Buy => AssetTag.quote
        | OrderDirection.Sell => AssetTag.base
      let msgs := if refund > 0 then [Msg.mk o.bidder_addr tag refund] else []
      Except.ok (msgs, remove_order s o)

/-! ## Matching engine (order.rs, excecute_pair)

The matcher walks buy ticks (descending) against sell ticks (ascending),
loads FIFO order lists per tick, and settles crossing orders.  Only the
order rows matter to the matcher's arithmetic, so its store is the plain
order bucket (`List Order`); index maintenance is the business of
`store_order`/`remove_order` above and of claims C6/C8. -/

/-- State of one order book pair as the matcher sees it: the order rows, the
pair's dust threshold, and the pending balances (base, quote) of the two
persistent Executor rows read by `process_reward` (absent rows read as
zero). -/
structure PairState where
  store : List Order
  min_quote_coin_amount : Nat
  rewardBal : Nat × Nat
  relayerBal : Nat × Nat
deriving DecidableEq, Repr

/-- Accumulator threaded through the match loops: the order store, the two
Executor balances being accrued, and the per-trader payment lists pushed by
the quote leg (`list_asker`) and the base leg (`list_bidder`). -/
structure MAcc where
  store : List Order
  rewardB : Nat
  rewardQ : Nat
  relayerB : Nat
  relayerQ : Nat
  askerPay : List (Nat × Nat)
  bidderPay : List (Nat × Nat)
deriving DecidableEq, Repr

/-- Result of one matching call: final order store, the two persisted
Executor balances, the coalesced trader transfers, and the reward/relayer
disbursement transfers. -/
structure MatchResult where
  store : List Order
  rewardBal : Nat × Nat
  relayerBal : Nat × Nat
  traderMsgs : List Msg
  rewardMsgs : List Msg
deriving DecidableEq, Repr

/-- Insert into a descending sorted list of distinct ticks. -/
def insertDesc (x : Nat) : List Nat → List Nat
  | [] => [x]
  | y :: ys =>
    if x > y then x :: y :: ys
    else if x = y then y :: ys
    else y :: insertDesc x ys

/-- Insert into an ascending sorted list of distinct ticks. -/
def insertAsc (x : Nat) : List Nat → List Nat
  | [] => [x]
  | y :: ys =>
    if x < y then x :: y :: ys
    else if x = y then y :: ys
    else y :: insertAsc x ys

/-- Distinct ticks of a list of prices, best-buy (descending) first. -/
def ticksDesc (l : List Nat) : List Nat := l.foldr insertDesc []

/-- Distinct ticks of a list of prices, best-sell (ascending) first. -/
def ticksAsc (l : List Nat) : List Nat := l.foldr insertAsc []

/-- Insertion into an order list sorted by ascending order id. -/
def insertById (o : Order) : List Order → List Order
  | [] => [o]
  | y :: ys => if o.order_id < y.order_id then o :: y :: ys else y :: insertById o ys

/-- FIFO sort (ascending order id) of an order list. -/
def sortById (l : List Order) : List Order := l.foldr insertById []

/-- Modelled from the spec: the per-call cap on tick and order list reads.
Spec 4.4.1/4.4.2 cap each lookup at `limit`; the reads go through the
pagination layer of 4.1 (default 10, max 30). -/
def listCap (limit : Option Nat) : Nat := min (limit.getD 10) 30

/-- Modelled from the spec: `OrderBook::find_list_match_price` (missing
orderbook.rs).  Spec 4.4.1: the Buy ticks of the pair in descending price
order and the Sell ticks in ascending order, read from the tick prefix and
filtered for live orders, each capped. -/
def find_list_match_price (store : List Order) (limit : Option Nat) :
    List Nat × List Nat :=
  let buys := store.filter (fun o => o.direction = OrderDirection.Buy)
  let sells := store.filter (fun o => o.direction = OrderDirection.Sell)
  ((ticksDesc (buys.map tickKey)).take (listCap limit),
   (ticksAsc (sells.map tickKey)).take (listCap limit))

/-- Modelled from the spec: `OrderBook::find_match_orders` (missing
orderbook.rs).  Spec 4.4.2: the orders of a direction sitting at a tick as a
FIFO list (ascending order id), capped. -/
def find_match_orders (store : List Order) (price : Nat)
    (d : OrderDirection) (limit : Option Nat) : List Order :=
  (sortById (store.filter (fun o => o.direction = d ∧ tickKey o = price))).take
    (listCap limit)

/-- Modelled from the spec: `Order::fill_order` (missing orderbook.rs).
Spec 3.2: fills advance the `filled_*` fields; reaching
`filled_offer = offer` OR `filled_ask = ask` marks the order Fulfilled and
removes it from storage, otherwise the order becomes PartialFilled and is
re-stored.  Returns the updated store and the updated in-memory order. -/
def fill_order (store : List Order) (o : Order) (ask_inc offer_inc : Nat) :
    List Order × Order :=
  let o1 := { o with
    filled_ask_amount := o.filled_ask_amount + ask_inc
    filled_offer_amount := o.filled_offer_amount + offer_inc }
  if o1.filled_offer_amount = o1.offer_amount ∨ o1.filled_ask_amount = o1.ask_amount then
    let o2 := { o1 with status := OrderStatus.Fulfilled }
    (delOrder store o.order_id, o2)
  else
    let o2 := { o1 with status := OrderStatus.PartialFilled }
    (putOrder store o2, o2)

/-- Match price selection (order.rs lines 418, 444-450): `match_price` is
initialised to the buy order's price and reassigned per sell order only when
`match_one_price` is false — the older order's counterparty price wins. -/
def matchPrice (matchOne : Bool) (b s : Order) : Nat :=
  if matchOne then get_price b
  else if s.order_id < b.order_id then get_price b
  else get_price s

/-- Matched amounts of one pairwise fill exactly as order.rs lines 451-464
computes them: the quote amount `sell_ask`, then
`Uint128::from(sell_ask * 10^18).checked_div(match_price.atomics()).unwrap()`
capped by the remaining sell offer.  At a zero-atomics match price the
checked division returns `None` and the unwrap panics, aborting the entire
call: the result is `none`, not a skip. -/
def match_amounts_checked (lefBuy lefSell p : Nat) : Option (Nat × Nat) :=
  let sellAsk := min lefBuy (mulDec lefSell p)
  match checkedDiv (sellAsk * atomics18) p with
  | none => none
  | some q => some (sellAsk, min q lefSell)

/-- Matched amounts of one pairwise fill (order.rs lines 451-464): the quote
amount `sell_ask` and the base amount `sell_offer`.  Zero-totalized
projection of `match_amounts_checked` (they agree whenever the match price
is nonzero). -/
def match_amounts (lefBuy lefSell p : Nat) : Nat × Nat :=
  let sellAsk := min lefBuy (mulDec lefSell p)
  (sellAsk, min (divDec sellAsk p) lefSell)

/-- Fees of one settled leg (order.rs lines 482-507 and 538-564): commission
`min(amount * 0.001, amount)` to the reward wallet, then the flat relayer fee
capped at what is left, then the trader's credit.  Returns
(reward fee, relayer fee, trader credit). -/
def legFees (flat amount : Nat) : Nat × Nat × Nat :=
  let rewardFee := min (mulDec amount commissionAtomics) amount
  let rest := amount - rewardFee
  let relayerFee := min flat rest
  (rewardFee, relayerFee, rest - relayerFee)

/-- Stuck-row sweep (order.rs lines 399-415 and 430-442): an in-memory order
with zero remaining offer or Fulfilled status is removed from storage when
its row still exists. -/
def stuckSweep (acc : MAcc) (o : Order) : MAcc :=
  match findOrder acc.store o.order_id with
  | some _ => { acc with store := delOrder acc.store o.order_id }
  | none => acc

/-- Fill phase of one pairwise match (order.rs lines 471-575): fill the sell
order, settle the quote leg (fees to Executor slots, credit pushed to
`list_asker` when nonzero), fill the buy order, settle the base leg
symmetrically into `list_bidder`. -/
def fillPhase (p sellAsk sellOffer : Nat) (acc : MAcc) (b s : Order) :
    MAcc × Order × Order :=
  let fs := fill_order acc.store s sellAsk sellOffer
  let qFees := legFees (mulDec relayFeeConst p) sellAsk
  let askerPay :=
    if qFees.2.2 = 0 then acc.askerPay else acc.askerPay ++ [(s.bidder_addr, qFees.2.2)]
  let fb := fill_order fs.1 b sellOffer sellAsk
  let bFees := legFees relayFeeConst sellOffer
  let bidderPay :=
    if bFees.2.2 = 0 then acc.bidderPay else acc.bidderPay ++ [(b.bidder_addr, bFees.2.2)]
  ({ store := fb.1
     rewardB := acc.rewardB + bFees.1
     rewardQ := acc.rewardQ + qFees.1
     relayerB := acc.relayerB + bFees.2.1
     relayerQ := acc.relayerQ + qFees.2.1
     askerPay := askerPay
     bidderPay := bidderPay }, fb.2, fs.2)

/-- Dust phase of one pairwise match (order.rs lines 577-627): recompute the
remainders at the match price; a sell remainder whose quote value is below
`min_quote_coin_amount` or zero is swept into the reward wallet's base slot;
a buy remainder below `min_quote_coin_amount` (the buy remainder itself, in
quote units) or whose base value is zero is swept into the quote slot.  Swept
orders are marked Fulfilled and removed. -/
def dustPhase (minQuote p : Nat) (acc : MAcc) (b s : Order) :
    MAcc × Order × Order :=
  let lefS := remOffer s
  let lefB := remOffer b
  let lefSellAsk := mulDec lefS p
  let lefBuyAsk := lefB * atomics18 / mulDec p atomics18
  let step1 :=
    if lefS > 0 ∧ (lefSellAsk < minQuote ∨ lefSellAsk = 0) then
      ({ acc with
          rewardB := acc.rewardB + lefS
          store := delOrder acc.store s.order_id },
        { s with status := OrderStatus.Fulfilled })
    else (acc, s)
  let acc1 := step1.1
  let step2 :=
    if lefB > 0 ∧ (lefB < minQuote ∨ lefBuyAsk = 0) then
      ({ acc1 with
          rewardQ := acc1.rewardQ + lefB
          store := delOrder acc1.store b.order_id },
        { b with status := OrderStatus.Fulfilled })
    else (acc1, b)
  (step2.1, step2.2, step1.2)

/-- One iteration of the innermost loop of `excecute_pair` (order.rs lines
421-634): stuck-sweep the sell order, pick the match price, compute the
matched amounts, skip when either is zero, otherwise fill both orders,
settle fees and run the dust phase.  Returns the accumulator and the updated
in-memory buy and sell orders. -/
def doSellIter (minQuote : Nat) (matchOne : Bool) (acc : MAcc) (b s : Order) :
    MAcc × Order × Order :=
  if remOffer s = 0 ∨ s.status = OrderStatus.Fulfilled then
    (stuckSweep acc s, b, s)
  else
    let p := matchPrice matchOne b s
    let amounts := match_amounts (remOffer b) (remOffer s) p
    if amounts.1 = 0 ∨ amounts.2 = 0 then (acc, b, s)
    else
      let filled := fillPhase p amounts.1 amounts.2 acc b s
      dustPhase minQuote p filled.1 filled.2.1 filled.2.2

/-- Innermost loop over the in-memory sell list, threading the accumulator
and the in-memory buy order and updating the sell list in place. -/
def sellLoop (minQuote : Nat) (matchOne : Bool) (acc : MAcc) (b : Order) :
    List Order → MAcc × Order × List Order
  | [] => (acc, b, [])
  | s :: rest =>
    let r1 := doSellIter minQuote matchOne acc b s
    let r2 := sellLoop minQuote matchOne r1.1 r1.2.1 rest
    (r2.1, r2.2.1, r1.2.2 :: r2.2.2)

/-- Loop over the in-memory buy list (order.rs lines 398-640): stuck-sweep
dead buy rows, otherwise run the sell loop; both in-memory lists persist
across iterations. -/
def buyLoop (minQuote : Nat) (matchOne : Bool) (acc : MAcc) :
    List Order → List Order → MAcc × List Order × List Order
  | [], sells => (acc, [], sells)
  | b :: rest, sells =>
    if remOffer b = 0 ∨ b.status = OrderStatus.Fulfilled then
      let acc1 := stuckSweep acc b
      let r := buyLoop minQuote matchOne acc1 rest sells
      (r.1, b :: r.2.1, r.2.2)
    else
      let r1 := sellLoop minQuote matchOne acc b sells
      let r2 := buyLoop minQuote matchOne r1.1 rest r1.2.2
      (r2.1, r1.2.1 :: r2.2.1, r2.2.2)

/-- Loop over the sell tick list for one buy tick (order.rs lines 382-641):
breaks as soon as the buy tick is below the sell tick; reads the sell FIFO
list fresh per sell tick from the current store. -/
def sellTickLoop (minQuote : Nat) (limit : Option Nat) (bp : Nat)
    (acc : MAcc) (buys : List Order) : List Nat → MAcc × List Order
  | [] => (acc, buys)
  | sp :: rest =>
    if bp < sp then (acc, buys)
    else
      let sells := find_match_orders acc.store sp OrderDirection.Sell limit
      let r := buyLoop minQuote (bp = sp) acc buys sells
      sellTickLoop minQuote limit bp r.1 r.2.1 rest

/-- Loop over the buy tick list (order.rs lines 375-642): reads the buy FIFO
list once per buy tick from the current store. -/
def buyTickLoop (minQuote : Nat) (limit : Option Nat) (sellTicks : List Nat)
    (acc : MAcc) : List Nat → MAcc
  | [] => acc
  | bp :: rest =>
    let buys := find_match_orders acc.store bp OrderDirection.Buy limit
    let r := sellTickLoop minQuote limit bp acc buys sellTicks
    buyTickLoop minQuote limit sellTicks r.1 rest

/-- Payment coalescing of `transfer_to_trader` (order.rs lines 278-322): sum
amounts into the first payment of each address, keeping first-seen order. -/
def coalesce (l : List (Nat × Nat)) : List (Nat × Nat) :=
  l.foldl
    (fun acc p =>
      if acc.any (fun q => q.1 = p.1) then
        acc.map (fun q => if q.1 = p.1 then (q.1, q.2 + p.2) else q)
      else acc ++ [p])
    []

/-- Disbursement of one Executor slot by `transfer_reward` (order.rs lines
242-276): a slot holding at least the threshold is paid out in full and
reset to zero; otherwise it carries over. -/
def flushSlot (addr : Nat) (tag : AssetTag) (amt : Nat) : List Msg × Nat :=
  if rewardThreshold ≤ amt then ([Msg.mk addr tag amt], 0) else ([], amt)

/-- Address of the hard-coded reward wallet (stand-in for the bech32
constant REWARD_WALLET in order.rs). -/
def rewardWalletAddr : Nat := 999

/-- Initial accumulator of a matching call: the current store, the two
Executor rows read by `process_reward` (absent rows read as zero), empty
payment lists. -/
def initAcc (s : PairState) : MAcc :=
  { store := s.store
    rewardB := s.rewardBal.1, rewardQ := s.rewardBal.2
    relayerB := s.relayerBal.1, relayerQ := s.relayerBal.2
    askerPay := [], bidderPay := [] }

/-- Embedding of `excecute_pair` (order.rs lines 324-661) for one pair:
read the two Executor rows, walk the tick lists, run the match loops, then
coalesce trader payments, disburse Executor slots at the threshold, and
persist the two Executor rows. -/
def excecute_pair (relayerAddr : Nat) (limit : Option Nat) (s : PairState) :
    MatchResult :=
  let ticks := find_list_match_price s.store limit
  let acc := buyTickLoop s.min_quote_coin_amount limit ticks.2 (initAcc s) ticks.1
  let traderMsgs :=
    (coalesce acc.askerPay).map (fun p => Msg.mk p.1 AssetTag.quote p.2) ++
    (coalesce acc.bidderPay).map (fun p => Msg.mk p.1 AssetTag.base p.2)
  let rwB := flushSlot rewardWalletAddr AssetTag.base acc.rewardB
  let rlB := flushSlot relayerAddr AssetTag.base acc.relayerB
  let rwQ := flushSlot rewardWalletAddr AssetTag.quote acc.rewardQ
  let rlQ := flushSlot relayerAddr AssetTag.quote acc.relayerQ
  { store := acc.store
    rewardBal := (rwB.2, rwQ.2)
    relayerBal := (rlB.2, rlQ.2)
    traderMsgs := traderMsgs
    rewardMsgs := rwB.1 ++ rlB.1 ++ rwQ.1 ++ rlQ.1 }

/-- Custody of the engine in one asset: the sum of the remaining offer
balances of the stored orders whose offer side is that asset (base for Sell
orders, quote for Buy orders). -/
def custody (store : List Order) (tag : AssetTag) : Nat :=
  (store.map (fun o =>
    match o.direction, tag with
    | OrderDirection.Sell, AssetTag.base => remOffer o
    | OrderDirection.Buy, AssetTag.quote => remOffer o
    | _, _ => 0)).sum

/-- Total amount of one asset carried by a list of messages. -/
def msgsTotal (msgs : List Msg) (tag : AssetTag) : Nat :=
  (msgs.map (fun m => if m.tag = tag then m.amount else 0)).sum

/-! ## Paginated reads (state.rs lines 124-197)

Bucket keys are byte strings; the order buckets key rows by the fixed-width
8-byte little-endian order id.  Range scans deliver keys in byte-wise
lexicographic order, start bounds inclusive and end bounds exclusive, which
is what `calc_range_start` (appending a `1` byte to land strictly after the
cursor key) and `calc_range_end` rely on. -/

/-- Fixed-width 8-byte little-endian encoding of an order id. -/
def u64le8 (n : Nat) : List Nat := (List.range 8).map (fun i => n / 256 ^ i % 256)

/-- Embedding of `bytes_to_u64` (state.rs lines 176-183): decode the first 8
bytes as a little-endian u64, failing on shorter input. -/
def bytesToU64 (b : List Nat) : Option Nat :=
  if 8 ≤ b.length then
    some (((List.range 8).map (fun i => (b.getD i 0) * 256 ^ i)).sum)
  else none

/-- Byte-wise lexicographic strict order on keys. -/
def ltBytes : List Nat → List Nat → Bool
  | [], [] => false
  | [], _ :: _ => true
  | _ :: _, [] => false
  | x :: xs, y :: ys => if x < y then true else if y < x then false else ltBytes xs ys

/-- Embedding of `calc_range_start` (state.rs lines 186-192): the ascending
range starts at the cursor key with a `1` byte appended, the first key
strictly after the cursor. -/
def calc_range_start (start_after : Option Nat) : Option (List Nat) :=
  start_after.map (fun id => u64le8 id ++ [1])

/-- Embedding of `calc_range_end` (state.rs lines 195-197): the descending
range ends (exclusively) at the cursor key itself. -/
def calc_range_end (start_after : Option Nat) : Option (List Nat) :=
  start_after.map u64le8

/-- Inclusion of a key in the ascending scan range (start inclusive). -/
def inRangeAsc (start : Option (List Nat)) (k : List Nat) : Bool :=
  match start with
  | none => true
  | some st => ! ltBytes k st

/-- Inclusion of a key in the descending scan range (end exclusive). -/
def inRangeDesc (stop : Option (List Nat)) (k : List Nat) : Bool :=
  match stop with
  | none => true
  | some en => ltBytes k en

/-- Insertion into an ascending byte-lexicographically sorted key list. -/
def insertKeyAsc (k : List Nat) : List (List Nat) → List (List Nat)
  | [] => [k]
  | y :: ys => if ltBytes k y then k :: y :: ys else y :: insertKeyAsc k ys

/-- Insertion into a descending byte-lexicographically sorted key list. -/
def insertKeyDesc (k : List Nat) : List (List Nat) → List (List Nat)
  | [] => [k]
  | y :: ys => if ltBytes y k then k :: y :: ys else y :: insertKeyDesc k ys

/-- Ascending byte-lexicographic sort of a key list. -/
def sortKeysAsc (l : List (List Nat)) : List (List Nat) := l.foldr insertKeyAsc []

/-- Descending byte-lexicographic sort of a key list. -/
def sortKeysDesc (l : List (List Nat)) : List (List Nat) := l.foldr insertKeyDesc []

/-- Keys visited by one paginated range scan (state.rs lines 132-142): the
bucket's keys restricted to the cursor range, in scan order, capped at
`min(limit or DEFAULT_LIMIT, MAX_LIMIT)` with DEFAULT_LIMIT 10, MAX_LIMIT
30.  `ascending = true` embeds `Some(OrderBy::Ascending)`; anything else
scans descending. -/
def selectedKeys (keys : List (List Nat)) (start_after : Option Nat)
    (limit : Option Nat) (ascending : Bool) : List (List Nat) :=
  let lim := min (limit.getD 10) 30
  if ascending then
    (sortKeysAsc (keys.filter (inRangeAsc (calc_range_start start_after)))).take lim
  else
    (sortKeysDesc (keys.filter (inRangeDesc (calc_range_end start_after)))).take lim

/-- Collect the image of a fallible function over a list, failing if any
element fails (the `collect` of a Rust iterator of StdResult). -/
def mapOpt (f : α → Option β) : List α → Option (List β)
  | [] => some []
  | a :: t =>
    match f a, mapOpt f t with
    | some b, some bs => some (b :: bs)
    | _, _ => none

/-- Embedding of `read_orders_with_indexer` (state.rs lines 124-148): walk
the enumeration bucket's keys in range order, decode each as an order id and
read the order row, failing if any read fails. -/
def read_orders_with_indexer (keys : List (List Nat)) (orders : List Order)
    (start_after : Option Nat) (limit : Option Nat) (ascending : Bool) :
    Option (List Order) :=
  mapOpt (fun k => (bytesToU64 k).bind (findOrder orders))
    (selectedKeys keys start_after limit ascending)

/-- Embedding of `read_orders` (state.rs lines 150-174): same range scan
over the order bucket itself; the value under each visited key is the order
row, read here through its id key. -/
def read_orders (orders : List Order) (start_after : Option Nat)
    (limit : Option Nat) (ascending : Bool) : Option (List Order) :=
  mapOpt (fun k => (bytesToU64 k).bind (findOrder orders))
    (selectedKeys (orders.map (fun o => u64le8 o.order_id)) start_after limit
      ascending)

/-! ## Reachability of the index store (claim C8)

The index store is mutated by exactly three operation shapes in this
repository: storing a fresh order (submit, `inserted = true`), re-storing an
existing order with only its filled amounts and status changed (a fill,
`inserted = false`), and removing a stored order (cancel, admin removal, and
the matcher's sweeps). -/

inductive Reach : IdxState → Prop where
  | init : Reach ⟨[], [], [], [], []⟩
  | submit (s : IdxState) (o : Order) : Reach s →
      findOrder s.orders o.order_id = none → Reach (store_order s o true)
  | fill (s : IdxState) (o o2 : Order) : Reach s →
      findOrder s.orders o.order_id = some o → o2.order_id = o.order_id →
      o2.bidder_addr = o.bidder_addr → tickKey o2 = tickKey o →
      Reach (store_order s o2 false)
  | removeStep (s : IdxState) (o : Order) : Reach s →
      findOrder s.orders o.order_id = some o → Reach (remove_order s o)

/-- Auxiliary invariant of the index store carried through reachability:
tick counters count by-price entries, no stored zero counter, the by-price
family mirrors the order rows, no duplicate ids or entries. -/
def IdxInv (s : IdxState) : Prop :=
  (∀ pk, (lookupAssoc s.ticks pk).getD 0 =
      (s.byPrice.filter (fun e => e.1 = pk)).length) ∧
  (∀ pk, lookupAssoc s.ticks pk ≠ some 0) ∧
  (∀ pk id, (pk, id) ∈ s.byPrice ↔
      ∃ o, o ∈ s.orders ∧ o.order_id = id ∧ tickKey o = pk) ∧
  (s.orders.map (fun o => o.order_id)).Nodup ∧
  s.byPrice.Nodup

/-! ## Concrete instances used by counterexamples and witnesses -/

/-- Sell order of the conservation failing input: 100 base for 100 quote. -/
def c1Sell : Order := ⟨1, OrderDirection.Sell, 10, 100, 100, 0, 0, OrderStatus.Open⟩

/-- Buy order of the conservation failing input: 100 quote for 200 base. -/
def c1Buy : Order := ⟨2, OrderDirection.Buy, 20, 100, 200, 0, 0, OrderStatus.Open⟩

/-- Failing input of claim C1: both orders open, dust threshold zero, empty
Executor rows. -/
def c1State : PairState := ⟨[c1Sell, c1Buy], 0, (0, 0), (0, 0)⟩

/-- Sell order of the C3 counterexample: 500 base for 5000 quote. -/
def c3Sell : Order := ⟨1, OrderDirection.Sell, 10, 500, 5000, 0, 0, OrderStatus.Open⟩

/-- Buy order of the C3 counterexample: 10000 quote for 100000 base. -/
def c3Buy : Order := ⟨2, OrderDirection.Buy, 20, 10000, 100000, 0, 0, OrderStatus.Open⟩

/-- C3 counterexample state: dust threshold 1000 quote units. -/
def c3State : PairState := ⟨[c3Sell, c3Buy], 1000, (0, 0), (0, 0)⟩

/-- Buy order of the C4 counterexample: raw price 1.0004, tick 1.000. -/
def c4Buy : Order := ⟨2, OrderDirection.Buy, 20, 10000, 10004, 0, 0, OrderStatus.Open⟩

/-- Sell order of the C4 counterexample: raw price 1.0002, tick 1.000. -/
def c4Sell : Order := ⟨1, OrderDirection.Sell, 10, 10002, 10000, 0, 0, OrderStatus.Open⟩

/-- C4 counterexample state: both orders share the 1.000 tick. -/
def c4State : PairState := ⟨[c4Sell, c4Buy], 0, (0, 0), (0, 0)⟩

/-- C7 counterexample state: empty book, relayer Executor row holding a
previously accrued 2000000 of the base asset. -/
def c7State : PairState := ⟨[], 0, (0, 0), (2000000, 0)⟩

/-- Order of the C8 counterexample. -/
def c8Order : Order := ⟨1, OrderDirection.Buy, 7, 10, 10, 0, 0, OrderStatus.Open⟩

/-- C8 counterexample state: all four index families hold entries for the
order, including a by-direction entry. -/
def c8State : IdxState :=
  ⟨[c8Order], [(tickKey c8Order, 1)], [(tickKey c8Order, 1)], [(7, 1)],
    [(OrderDirection.Buy, 1)]⟩

/-- Order row with id 5 for the pagination counterexample. -/
def c9Order5 : Order := ⟨5, OrderDirection.Buy, 1, 10, 10, 0, 0, OrderStatus.Open⟩

/-- Order row with id 6 for the pagination counterexample. -/
def c9Order6 : Order := ⟨6, OrderDirection.Buy, 1, 10, 10, 0, 0, OrderStatus.Open⟩

/-- Empty match accumulator used by witnesses. -/
def emptyAcc : MAcc := ⟨[], 0, 0, 0, 0, [], []⟩

/-- Buy order whose raw price floors to zero atomics (offer 10^19 quote, ask
1), the zero-price input of the C2 counterexample. -/
def c2zBuy : Order :=
  ⟨2, OrderDirection.Buy, 20, 10000000000000000000, 1, 0, 0, OrderStatus.Open⟩

/-- Sell order whose raw price also floors to zero, matched against `c2zBuy`
on the shared zero tick in the C2 counterexample. -/
def c2zSell : Order :=
  ⟨1, OrderDirection.Sell, 10, 1, 10000000000000000000, 0, 0, OrderStatus.Open⟩

/-- Buy order with raw price 0.5 (atomics 5 * 10^17), used by the C2
witness. -/
def c2wBuy : Order := ⟨2, OrderDirection.Buy, 20, 2, 1, 0, 0, OrderStatus.Open⟩

/-- Sell order whose single remaining unit floors to zero quote at match
price 0.5, used by the C2 witness. -/
def c2wSell : Order := ⟨1, OrderDirection.Sell, 10, 1, 2, 0, 0, OrderStatus.Open⟩

/-- Order used by the cancel witnesses: Buy, 40 of 100 quote filled. -/
def c6Order : Order := ⟨3, OrderDirection.Buy, 8, 100, 50, 40, 20, OrderStatus.PartialFilled⟩

/-- Index state holding `c6Order`, used by the cancel witnesses. -/
def c6State : IdxState :=
  ⟨[c6Order], [(tickKey c6Order, 1)], [(tickKey c6Order, 3)], [(8, 3)], []⟩

/-- Fully filled Sell order used by the C10 witness. -/
def c10Order : Order := ⟨4, OrderDirection.Sell, 9, 70, 70, 70, 70, OrderStatus.PartialFilled⟩

/-- Index state holding `c10Order`, used by the C10 witness. -/
def c10State : IdxState :=
  ⟨[c10Order], [(tickKey c10Order, 1)], [(tickKey c10Order, 4)], [(9, 4)], []⟩

/-- State with no orders but carried-over Executor balances below the
threshold, used by the C7 witness. -/
def c7wState : PairState := ⟨[], 5, (3, 4), (6, 8)⟩

/-- Small sell order with remaining offer 5, used by the C3 witness. -/
def c3wSell : Order := ⟨1, OrderDirection.Sell, 10, 5, 5, 0, 0, OrderStatus.Open⟩

/-- Small buy order with remaining offer 3, used by the C3 witness. -/
def c3wBuy : Order := ⟨2, OrderDirection.Buy, 20, 3, 3, 0, 0, OrderStatus.Open⟩

/-! ## Helper lemmas -/

theorem findOrder_delOrder_self (l : List Order) (id : Nat) :
    findOrder (delOrder l id) id = none := by
  induction l with
  | nil => rfl
  | cons x t ih =>
    by_cases hx : x.order_id = id
    · simp only [delOrder] at ih ⊢
      simp [findOrder, List.filter, hx, ih]
    · simp only [delOrder] at ih ⊢
      simp [findOrder, List.filter, hx, ih]

theorem findOrder_none_of_filter (l : List Order) (q : Order → Bool) (id : Nat)
    (h : findOrder l id = none) : findOrder (l.filter q) id = none := by
  induction l with
  | nil => rfl
  | cons x t ih =>
    rw [findOrder, List.find?] at h
    by_cases hx : x.order_id = id
    · simp [hx] at h
    · rw [List.filter]
      cases hq : q x
      · exact ih (by simpa [findOrder, hx] using h)
      · have ht := ih (by simpa [findOrder, hx] using h)
        simpa [findOrder, List.find?, hx] using ht

theorem findOrder_delOrder_of_none (l : List Order) (i j : Nat)
    (h : findOrder l i = none) : findOrder (delOrder l j) i = none :=
  findOrder_none_of_filter l _ i h

theorem not_mem_erasePair (l : List (Nat × Nat)) (p : Nat × Nat) :
    p ∉ erasePair l p := by
  simp [erasePair]

theorem lookupAssoc_setAssoc_self (l : List (Nat × Nat)) (k v : Nat) :
    lookupAssoc (setAssoc l k v) k = some v := by
  simp [lookupAssoc, setAssoc, List.find?]

theorem lookupAssoc_delAssoc_self (l : List (Nat × Nat)) (k : Nat) :
    lookupAssoc (delAssoc l k) k = none := by
  induction l with
  | nil => rfl
  | cons x t ih =>
    by_cases hx : x.1 = k
    · simp only [delAssoc] at ih ⊢
      simp [lookupAssoc, List.filter, hx, ih]
    · simp only [delAssoc] at ih ⊢
      simp [lookupAssoc, List.filter, List.find?, hx, ih]

theorem remove_order_tick_dec (s : IdxState) (o : Order) :
    (lookupAssoc (remove_order s o).ticks (tickKey o)).getD 0 =
      (lookupAssoc s.ticks (tickKey o)).getD 0 - 1 := by
  simp only [remove_order]
  split_ifs with h0 h1
  · rw [lookupAssoc_setAssoc_self]
    rfl
  · rw [lookupAssoc_delAssoc_self]
    simp only [Option.getD_none]
    omega
  · omega

theorem remove_order_tick_zero (s : IdxState) (o : Order)
    (h : (lookupAssoc s.ticks (tickKey o)).getD 0 = 1) :
    lookupAssoc (remove_order s o).ticks (tickKey o) = none := by
  simp only [remove_order, h]
  norm_num
  exact lookupAssoc_delAssoc_self s.ticks (tickKey o)

/-! ## Claim theorems -/

/-- C1 (code bug): value conservation fails on the failing input `c1State`.
The sell order offers 100 base for 100 quote; the buy order offers 100 quote
at raw price 2.  The match consumes the buy order's 100 quote, fills only 50
base of the sell order, and `fill_order` removes the sell order because its
`filled_ask_amount` reached `ask_amount` while 50 base were still unfilled.
Base custody drops by 100, yet base transfers to traders and to the
reward/relayer wallets total 0 and the Executor rows retain only 50 base:
50 base of custody vanish without a matching outflow or residual. -/
theorem c1_conservation_violated :
    custody c1State.store AssetTag.base = 100 ∧
    custody (excecute_pair 7 none c1State).store AssetTag.base = 0 ∧
    msgsTotal (excecute_pair 7 none c1State).traderMsgs AssetTag.base +
      msgsTotal (excecute_pair 7 none c1State).rewardMsgs AssetTag.base = 0 ∧
    c1State.rewardBal.1 = 0 ∧ c1State.relayerBal.1 = 0 ∧
    (excecute_pair 7 none c1State).rewardBal.1 +
      (excecute_pair 7 none c1State).relayerBal.1 = 50 ∧
    (50 : Nat) ≠ 100 := by decide

/-- C3 (counterexample): after the single fill of `c3State` (match price 10,
dust threshold 1000), the buy order remains stored as PartialFilled with
remaining offer 5000, although its remaining ask side is
5000 * 10^18 / (10 * 10^18) = 500, which is positive and below the
threshold — the claim would require it to be marked Fulfilled and removed.
The code instead compares the remaining quote offer (5000) against the
threshold. -/
theorem c3_buy_dust_not_swept :
    findOrder (excecute_pair 7 none c3State).store 2 =
      some ⟨2, OrderDirection.Buy, 20, 10000, 100000, 5000, 500,
        OrderStatus.PartialFilled⟩ ∧
    remOffer ⟨2, OrderDirection.Buy, 20, 10000, 100000, 5000, 500,
        OrderStatus.PartialFilled⟩ = 5000 ∧
    5000 * atomics18 / mulDec (10 * atomics18) atomics18 = 500 ∧
    500 < c3State.min_quote_coin_amount ∧ (0 : Nat) < 500 := by decide

/-- C4 (counterexample): both orders of `c4State` sit on the common 1.000
tick, so `match_one_price` is true, yet the match price is the buy order's
raw price 1.0004, not the common tick price; the run's trader transfers (the
base credit 9687 = 9996 - 9 - 300 arising from
sell_offer = floor(10000 * 10^18 / 1.0004e18) = 9996) reflect the raw
price, where the common tick price would give 9690. -/
theorem c4_match_price_not_tick :
    tickKey c4Buy = tickKey c4Sell ∧
    matchPrice true c4Buy c4Sell ≠ tickKey c4Buy ∧
    (excecute_pair 7 none c4State).traderMsgs =
      [⟨10, AssetTag.quote, 9690⟩, ⟨20, AssetTag.base, 9687⟩] := by decide

/-- C7 (counterexample): on `c7State` the book is empty (hence no crossing
orders), yet `excecute_pair` emits a transfer of the relayer Executor's
previously accrued 2000000 base and rewrites the Executor row to zero — not
a no-op. -/
theorem c7_flush_on_empty_book :
    c7State.store = [] ∧
    (excecute_pair 7 none c7State).rewardMsgs =
      [⟨7, AssetTag.base, 2000000⟩] ∧
    (excecute_pair 7 none c7State).relayerBal ≠ c7State.relayerBal := by decide

/-- C8 (counterexample): `remove_order` deletes the order row, the by-price
entry and the by-bidder entry of `c8Order`, but leaves the by-direction
entry `(Buy, 1)` in place — it does not remove the order from all four index
families. -/
theorem c8_by_direction_survives :
    findOrder (remove_order c8State c8Order).orders 1 = none ∧
    (tickKey c8Order, 1) ∉ (remove_order c8State c8Order).byPrice ∧
    (7, 1) ∉ (remove_order c8State c8Order).byBidder ∧
    (OrderDirection.Buy, 1) ∈ (remove_order c8State c8Order).byDirection := by decide

/-- C9 (counterexample): with orders 5 and 6 in the index, an ascending read
with start_after = 5 returns only order 6 — the entry whose key equals the
cursor is excluded, not included, in ascending order. -/
theorem c9_ascending_cursor_excluded :
    read_orders_with_indexer [u64le8 5, u64le8 6] [c9Order5, c9Order6]
      (some 5) none true = some [c9Order6] ∧
    read_orders [c9Order5, c9Order6] (some 5) none true = some [c9Order6] := by
  decide

/-- C2 (counterexample): at a reachable zero-atomics match price (`c2zBuy`
offers 10^19 quote for 1 base, so `Decimal::from_ratio` floors its price to
zero; `c2zSell` sits on the same zero tick) the claimed sell_ask amount is
zero, but the pair is not skipped with no fill applied: the division
`sell_ask * 10^18 checked_div match_price.atomics()` of order.rs lines
459-464 has no result and its unwrap panics, aborting the entire call. -/
theorem c2_zero_price_aborts :
    tickKey c2zBuy = tickKey c2zSell ∧
    matchPrice true c2zBuy c2zSell = 0 ∧
    (match_amounts (remOffer c2zBuy) (remOffer c2zSell)
      (matchPrice true c2zBuy c2zSell)).1 = 0 ∧
    match_amounts_checked (remOffer c2zBuy) (remOffer c2zSell)
      (matchPrice true c2zBuy c2zSell) = none := by decide

/-- C2 (amended): in every pairwise fill step with a nonzero match price the
matched quote amount is
`sell_ask = min(lef_buy_offer, floor(lef_sell_offer * match_price))` and the
matched base amount is
`sell_offer = min(floor(sell_ask * 10^18 / match_price.atomics), lef_sell_offer)`
(the fallible computation agrees with these formulas whenever the price is
nonzero), and when either amount is zero the pair of orders is skipped with
no fill applied; at a zero-atomics match price the unwrapped checked
division fails instead and the entire call aborts (see the
counterexample). -/
theorem c2_pairwise_fill_amounts (minQuote : Nat) (matchOne : Bool) (acc : MAcc)
    (b s : Order)
    (hlive : ¬ (remOffer s = 0 ∨ s.status = OrderStatus.Fulfilled))
    (_hp : matchPrice matchOne b s ≠ 0)
    (hzero : (match_amounts (remOffer b) (remOffer s) (matchPrice matchOne b s)).1 = 0 ∨
      (match_amounts (remOffer b) (remOffer s) (matchPrice matchOne b s)).2 = 0) :
    (∀ lefBuy lefSell p, p ≠ 0 →
      match_amounts_checked lefBuy lefSell p =
        some (match_amounts lefBuy lefSell p)) ∧
    (∀ lefBuy lefSell p,
      match_amounts lefBuy lefSell p =
        (min lefBuy (lefSell * p / atomics18),
         min (min lefBuy (lefSell * p / atomics18) * atomics18 / p) lefSell)) ∧
    doSellIter minQuote matchOne acc b s = (acc, b, s) := by
  refine ⟨?_, ?_, ?_⟩
  · intro lefBuy lefSell p hp2
    simp [match_amounts_checked, match_amounts, checkedDiv, hp2, mulDec, divDec]
  · intro lefBuy lefSell p
    simp [match_amounts, mulDec, divDec]
  · rw [doSellIter, if_neg hlive, if_pos hzero]

/-- Witness for the amended C2 at a concrete input with the nonzero match
price 0.5: the sell order's single remaining unit floors to a zero quote
amount and the step is a skip. -/
theorem c2_pairwise_fill_amounts_witness :
    doSellIter 0 false emptyAcc c2wBuy c2wSell = (emptyAcc, c2wBuy, c2wSell) :=
  (c2_pairwise_fill_amounts 0 false emptyAcc c2wBuy c2wSell (by decide)
    (by decide) (by decide)).2.2

/-- C5: per matched leg, the commission is `min(leg * 0.001, leg)` (which
floors to `leg / 1000`); the relayer fee is `min(300, leg after commission)`
on the base leg and `min(300 * match_price, leg after commission)` on the
quote leg; the trader is credited the leg minus both fees (the three parts
sum back to the leg); and the fill phase accrues the fees into the quote and
base slots of the reward-wallet and relayer Executor rows while pushing the
trader credits. -/
theorem c5_leg_fees (p sellAsk sellOffer : Nat) (acc : MAcc) (b s : Order) :
    (legFees (mulDec relayFeeConst p) sellAsk).1 =
      min (mulDec sellAsk commissionAtomics) sellAsk ∧
    (legFees (mulDec relayFeeConst p) sellAsk).1 = sellAsk / 1000 ∧
    (legFees (mulDec relayFeeConst p) sellAsk).2.1 =
      min (relayFeeConst * p / atomics18) (sellAsk - sellAsk / 1000) ∧
    (legFees relayFeeConst sellOffer).2.1 =
      min relayFeeConst (sellOffer - sellOffer / 1000) ∧
    sellAsk = (legFees (mulDec relayFeeConst p) sellAsk).1 +
      (legFees (mulDec relayFeeConst p) sellAsk).2.1 +
      (legFees (mulDec relayFeeConst p) sellAsk).2.2 ∧
    sellOffer = (legFees relayFeeConst sellOffer).1 +
      (legFees relayFeeConst sellOffer).2.1 +
      (legFees relayFeeConst sellOffer).2.2 ∧
    (fillPhase p sellAsk sellOffer acc b s).1.rewardQ =
      acc.rewardQ + (legFees (mulDec relayFeeConst p) sellAsk).1 ∧
    (fillPhase p sellAsk sellOffer acc b s).1.relayerQ =
      acc.relayerQ + (legFees (mulDec relayFeeConst p) sellAsk).2.1 ∧
    (fillPhase p sellAsk sellOffer acc b s).1.rewardB =
      acc.rewardB + (legFees relayFeeConst sellOffer).1 ∧
    (fillPhase p sellAsk sellOffer acc b s).1.relayerB =
      acc.relayerB + (legFees relayFeeConst sellOffer).2.1 ∧
    (fillPhase p sellAsk sellOffer acc b s).1.askerPay =
      acc.askerPay ++
        (if (legFees (mulDec relayFeeConst p) sellAsk).2.2 = 0 then []
         else [(s.bidder_addr, (legFees (mulDec relayFeeConst p) sellAsk).2.2)]) ∧
    (fillPhase p sellAsk sellOffer acc b s).1.bidderPay =
      acc.bidderPay ++
        (if (legFees relayFeeConst sellOffer).2.2 = 0 then []
         else [(b.bidder_addr, (legFees relayFeeConst sellOffer).2.2)]) := by
  have hdiv : ∀ a : Nat, mulDec a commissionAtomics = a / 1000 := by
    intro a
    show a * commissionAtomics / atomics18 = a / 1000
    have : atomics18 = commissionAtomics * 1000 := by decide
    rw [this, Nat.mul_comm a commissionAtomics,
      Nat.mul_div_mul_left a 1000 (by decide : 0 < commissionAtomics)]
  have hcomm : ∀ a : Nat, min (mulDec a commissionAtomics) a = a / 1000 := by
    intro a
    rw [hdiv a]
    exact min_eq_left (Nat.div_le_self a 1000)
  have hsum : ∀ flat a : Nat, a = (legFees flat a).1 + (legFees flat a).2.1 +
      (legFees flat a).2.2 := by
    intro flat a
    simp only [legFees]
    have h1 : min (mulDec a commissionAtomics) a ≤ a := min_le_right _ _
    have h2 : min flat (a - min (mulDec a commissionAtomics) a) ≤
        a - min (mulDec a commissionAtomics) a := min_le_right _ _
    omega
  refine ⟨rfl, ?_, ?_, ?_, hsum _ _, hsum _ _, ?_, ?_, ?_, ?_, ?_, ?_⟩
  · simp only [legFees]
    exact hcomm sellAsk
  · simp only [legFees]
    rw [hcomm]
    rfl
  · simp only [legFees]
    rw [hcomm]
  · simp [fillPhase]
  · simp [fillPhase]
  · simp [fillPhase]
  · simp [fillPhase]
  · simp only [fillPhase]
    split_ifs with h
    · simp
    · rfl
  · simp only [fillPhase]
    split_ifs with h
    · simp
    · rfl

/-- C4 (amended): when `match_one_price` is true the match price is the buy
order's raw price (so it equals the common rounded tick only when the buy
order's raw price is already rounded); when false it is the buy order's
price if the sell order is older (smaller id) and the sell order's price
otherwise. -/
theorem c4_match_price_rule (b s : Order) :
    matchPrice true b s = get_price b ∧
    (s.order_id < b.order_id → matchPrice false b s = get_price b) ∧
    (¬ s.order_id < b.order_id → matchPrice false b s = get_price s) ∧
    (get_price b ≠ tickKey b → matchPrice true b s ≠ tickKey b) := by
  refine ⟨rfl, ?_, ?_, ?_⟩
  · intro h
    simp [matchPrice, h]
  · intro h
    simp [matchPrice, h]
  · intro h
    simpa [matchPrice] using h

/-- Witness for C4 at concrete orders: both tie-break branches and the
deviation from the rounded tick. -/
theorem c4_match_price_rule_witness :
    matchPrice false c4Buy c4Sell = get_price c4Buy ∧
    matchPrice false c4Sell c4Buy = get_price c4Buy ∧
    matchPrice true c4Buy c4Sell ≠ tickKey c4Buy :=
  ⟨(c4_match_price_rule c4Buy c4Sell).2.1 (by decide),
   (c4_match_price_rule c4Sell c4Buy).2.2.1 (by decide),
   (c4_match_price_rule c4Buy c4Sell).2.2.2 (by decide)⟩

/-- C3 (amended): after each pairwise fill, the dust phase sweeps a sell
order whose remaining offer is positive and whose remaining quote value
(`lef_sell_offer * match_price`) is below `min_quote_coin_amount` or zero:
it is marked Fulfilled, removed, and its residual base is added to the
reward wallet's base slot.  A buy order is swept (into the quote slot) when
its remaining offer is positive and the remaining offer itself (in quote
units) is below `min_quote_coin_amount` or its remaining base value is zero
— the buy-side comparison is against the remaining offer, not against the
remaining ask side as the original claim states. -/
theorem c3_dust_sweep_rule (minQuote p : Nat) (acc : MAcc) (b s : Order) :
    (0 < remOffer s → mulDec (remOffer s) p < minQuote ∨ mulDec (remOffer s) p = 0 →
      (dustPhase minQuote p acc b s).2.2.status = OrderStatus.Fulfilled ∧
      findOrder (dustPhase minQuote p acc b s).1.store s.order_id = none ∧
      (dustPhase minQuote p acc b s).1.rewardB = acc.rewardB + remOffer s) ∧
    (0 < remOffer b →
      remOffer b < minQuote ∨ remOffer b * atomics18 / mulDec p atomics18 = 0 →
      (dustPhase minQuote p acc b s).2.1.status = OrderStatus.Fulfilled ∧
      findOrder (dustPhase minQuote p acc b s).1.store b.order_id = none ∧
      (dustPhase minQuote p acc b s).1.rewardQ = acc.rewardQ + remOffer b) := by
  constructor
  · intro hpos hcond
    by_cases hB : remOffer b > 0 ∧ (remOffer b < minQuote ∨
        remOffer b * atomics18 / mulDec p atomics18 = 0)
    · simp only [dustPhase, if_pos (And.intro hpos hcond), if_pos hB]
      refine ⟨by trivial, ?_, by trivial⟩
      exact findOrder_delOrder_of_none _ _ _ (findOrder_delOrder_self _ _)
    · simp only [dustPhase, if_pos (And.intro hpos hcond), if_neg hB]
      exact ⟨by trivial, findOrder_delOrder_self _ _, by trivial⟩
  · intro hpos hcond
    by_cases hS : remOffer s > 0 ∧ (mulDec (remOffer s) p < minQuote ∨
        mulDec (remOffer s) p = 0)
    · simp only [dustPhase, if_pos hS, if_pos (And.intro hpos hcond)]
      exact ⟨by trivial, findOrder_delOrder_self _ _, by trivial⟩
    · simp only [dustPhase, if_neg hS, if_pos (And.intro hpos hcond)]
      exact ⟨by trivial, findOrder_delOrder_self _ _, by trivial⟩

/-- Witness for C3 at concrete inputs: with threshold 10 and match price 0
both the sell order (remaining 5) and the buy order (remaining 3) are swept
into the reward wallet's base and quote slots. -/
theorem c3_dust_sweep_rule_witness :
    ((dustPhase 10 0 emptyAcc c3wBuy c3wSell).2.2.status = OrderStatus.Fulfilled ∧
      findOrder (dustPhase 10 0 emptyAcc c3wBuy c3wSell).1.store 1 = none ∧
      (dustPhase 10 0 emptyAcc c3wBuy c3wSell).1.rewardB = 0 + 5) ∧
    ((dustPhase 10 0 emptyAcc c3wBuy c3wSell).2.1.status = OrderStatus.Fulfilled ∧
      findOrder (dustPhase 10 0 emptyAcc c3wBuy c3wSell).1.store 2 = none ∧
      (dustPhase 10 0 emptyAcc c3wBuy c3wSell).1.rewardQ = 0 + 3) :=
  ⟨(c3_dust_sweep_rule 10 0 emptyAcc c3wBuy c3wSell).1 (by decide) (by decide),
   (c3_dust_sweep_rule 10 0 emptyAcc c3wBuy c3wSell).2 (by decide) (by decide)⟩

/-- C6: `cancel_order` by any sender other than the bidder fails with
Unauthorized (the transaction aborts, leaving storage unchanged); a cancel
by the bidder succeeds, refunds exactly `offer_amount - filled_offer_amount`
denominated in the quote asset for a Buy order and the base asset for a Sell
order (suppressing a zero refund), and removes the order from the order
bucket, the by-price and by-bidder indexes, and decrements the tick
counter. -/
theorem c6_cancel_order_rule (s : IdxState) (sender oid : Nat) (o : Order)
    (hfind : findOrder s.orders oid = some o) :
    (o.bidder_addr ≠ sender →
      cancel_order s sender oid = Except.error CError.Unauthorized) ∧
    (o.bidder_addr = sender → o.filled_offer_amount ≤ o.offer_amount →
      cancel_order s sender oid = Except.ok
        ((if o.offer_amount - o.filled_offer_amount > 0 then
            [Msg.mk o.bidder_addr
              (match o.direction with
               | OrderDirection.Buy => AssetTag.quote
               | OrderDirection.Sell => AssetTag.base)
              (o.offer_amount - o.filled_offer_amount)]
          else []), remove_order s o) ∧
      findOrder (remove_order s o).orders o.order_id = none ∧
      (tickKey o, o.order_id) ∉ (remove_order s o).byPrice ∧
      (o.bidder_addr, o.order_id) ∉ (remove_order s o).byBidder ∧
      (lookupAssoc (remove_order s o).ticks (tickKey o)).getD 0 =
        (lookupAssoc s.ticks (tickKey o)).getD 0 - 1 ∧
      ((lookupAssoc s.ticks (tickKey o)).getD 0 = 1 →
        lookupAssoc (remove_order s o).ticks (tickKey o) = none)) := by
  constructor
  · intro hne
    simp only [cancel_order, hfind, if_pos hne]
  · intro heq hle
    simp only [cancel_order, hfind]
    rw [if_neg (show ¬ o.bidder_addr ≠ sender by simp [heq]),
      if_neg (show ¬ o.offer_amount < o.filled_offer_amount by omega)]
    refine ⟨rfl, findOrder_delOrder_self _ _, ?_, ?_, remove_order_tick_dec s o,
      remove_order_tick_zero s o⟩
    · exact not_mem_erasePair _ _
    · exact not_mem_erasePair _ _

/-- Witness for C6 at a concrete state: an unauthorized sender is rejected
and the bidder's cancel refunds 60 quote and clears every maintained
index. -/
theorem c6_cancel_order_rule_witness :
    cancel_order c6State 5 3 = Except.error CError.Unauthorized ∧
    (cancel_order c6State 8 3 = Except.ok
        ([Msg.mk 8 AssetTag.quote 60], remove_order c6State c6Order) ∧
      findOrder (remove_order c6State c6Order).orders 3 = none ∧
      (tickKey c6Order, 3) ∉ (remove_order c6State c6Order).byPrice ∧
      (8, 3) ∉ (remove_order c6State c6Order).byBidder ∧
      (lookupAssoc (remove_order c6State c6Order).ticks (tickKey c6Order)).getD 0 =
        (lookupAssoc c6State.ticks (tickKey c6Order)).getD 0 - 1 ∧
      ((lookupAssoc c6State.ticks (tickKey c6Order)).getD 0 = 1 →
        lookupAssoc (remove_order c6State c6Order).ticks (tickKey c6Order) = none)) :=
  ⟨(c6_cancel_order_rule c6State 5 3 c6Order (by decide)).1 (by decide),
   (c6_cancel_order_rule c6State 8 3 c6Order (by decide)).2 (by decide) (by decide)⟩

/-- C10: cancelling a fully filled order (filled_offer_amount equal to
offer_amount) by its bidder succeeds, removes the order from storage and the
maintained indexes, and emits no transfer message at all: the zero refund is
suppressed. -/
theorem c10_cancel_fully_filled (s : IdxState) (o : Order)
    (hfind : findOrder s.orders o.order_id = some o)
    (hfull : o.filled_offer_amount = o.offer_amount) :
    cancel_order s o.bidder_addr o.order_id = Except.ok ([], remove_order s o) ∧
    findOrder (remove_order s o).orders o.order_id = none ∧
    (tickKey o, o.order_id) ∉ (remove_order s o).byPrice ∧
    (o.bidder_addr, o.order_id) ∉ (remove_order s o).byBidder := by
  refine ⟨?_, findOrder_delOrder_self _ _, not_mem_erasePair _ _,
    not_mem_erasePair _ _⟩
  simp only [cancel_order, hfind]
  rw [if_neg (show ¬ o.bidder_addr ≠ o.bidder_addr by simp),
    if_neg (show ¬ o.offer_amount < o.filled_offer_amount by omega),
    if_neg (show ¬ o.offer_amount - o.filled_offer_amount > 0 by omega)]

/-- Witness for C10 at a concrete fully filled order. -/
theorem c10_cancel_fully_filled_witness :
    cancel_order c10State 9 4 = Except.ok ([], remove_order c10State c10Order) ∧
    findOrder (remove_order c10State c10Order).orders 4 = none ∧
    (tickKey c10Order, 4) ∉ (remove_order c10State c10Order).byPrice ∧
    (9, 4) ∉ (remove_order c10State c10Order).byBidder :=
  c10_cancel_fully_filled c10State c10Order (by decide) (by decide)

theorem mem_insertDesc {x y : Nat} {l : List Nat} (h : x ∈ insertDesc y l) :
    x = y ∨ x ∈ l := by
  induction l with
  | nil =>
    simp [insertDesc] at h
    exact Or.inl h
  | cons z t ih =>
    simp only [insertDesc] at h
    split_ifs at h with h1 h2
    · rcases List.mem_cons.mp h with h3 | h3
      · exact Or.inl h3
      · exact Or.inr h3
    · exact Or.inr h
    · rcases List.mem_cons.mp h with h3 | h3
      · exact Or.inr (List.mem_cons.mpr (Or.inl h3))
      · rcases ih h3 with h4 | h4
        · exact Or.inl h4
        · exact Or.inr (List.mem_cons.mpr (Or.inr h4))

theorem mem_insertAsc {x y : Nat} {l : List Nat} (h : x ∈ insertAsc y l) :
    x = y ∨ x ∈ l := by
  induction l with
  | nil =>
    simp [insertAsc] at h
    exact Or.inl h
  | cons z t ih =>
    simp only [insertAsc] at h
    split_ifs at h with h1 h2
    · rcases List.mem_cons.mp h with h3 | h3
      · exact Or.inl h3
      · exact Or.inr h3
    · exact Or.inr h
    · rcases List.mem_cons.mp h with h3 | h3
      · exact Or.inr (List.mem_cons.mpr (Or.inl h3))
      · rcases ih h3 with h4 | h4
        · exact Or.inl h4
        · exact Or.inr (List.mem_cons.mpr (Or.inr h4))

theorem mem_ticksDesc {x : Nat} {l : List Nat} (h : x ∈ ticksDesc l) : x ∈ l := by
  induction l with
  | nil => simp [ticksDesc] at h
  | cons y t ih =>
    have h0 : x ∈ insertDesc y (ticksDesc t) := h
    rcases mem_insertDesc h0 with h1 | h1
    · exact List.mem_cons.mpr (Or.inl h1)
    · exact List.mem_cons.mpr (Or.inr (ih h1))

theorem mem_ticksAsc {x : Nat} {l : List Nat} (h : x ∈ ticksAsc l) : x ∈ l := by
  induction l with
  | nil => simp [ticksAsc] at h
  | cons y t ih =>
    have h0 : x ∈ insertAsc y (ticksAsc t) := h
    rcases mem_insertAsc h0 with h1 | h1
    · exact List.mem_cons.mpr (Or.inl h1)
    · exact List.mem_cons.mpr (Or.inr (ih h1))

theorem sellTickLoop_noop (mq : Nat) (lim : Option Nat) (bp : Nat) (acc : MAcc)
    (buys : List Order) (spl : List Nat) (h : ∀ sp ∈ spl, bp < sp) :
    sellTickLoop mq lim bp acc buys spl = (acc, buys) := by
  cases spl with
  | nil => rfl
  | cons sp rest =>
    rw [sellTickLoop, if_pos (h sp (List.mem_cons_self sp rest))]

theorem buyTickLoop_noop (mq : Nat) (lim : Option Nat) (stl : List Nat)
    (acc : MAcc) (bpl : List Nat) (h : ∀ bp ∈ bpl, ∀ sp ∈ stl, bp < sp) :
    buyTickLoop mq lim stl acc bpl = acc := by
  induction bpl generalizing acc with
  | nil => rfl
  | cons bp rest ih =>
    rw [buyTickLoop,
      sellTickLoop_noop mq lim bp acc
        (find_match_orders acc.store bp OrderDirection.Buy lim) stl
        (fun sp hsp => h bp (List.mem_cons_self bp rest) sp hsp)]
    exact ih acc (fun bp2 h2 sp hsp => h bp2 (List.mem_cons.mpr (Or.inr h2)) sp hsp)

/-- C7 (amended): on a book with no crossing orders (every buy tick strictly
below every sell tick), the matcher performs no order-store writes and emits
no trader transfers; it still re-persists the two Executor rows and
disburses any previously accrued slot holding at least the threshold,
zeroing that slot. -/
theorem c7_no_cross_noop (relayer : Nat) (limit : Option Nat) (s : PairState)
    (hnc : ∀ b ∈ s.store, ∀ o ∈ s.store, b.direction = OrderDirection.Buy →
      o.direction = OrderDirection.Sell → tickKey b < tickKey o) :
    (excecute_pair relayer limit s).store = s.store ∧
    (excecute_pair relayer limit s).traderMsgs = [] ∧
    (excecute_pair relayer limit s).rewardBal =
      ((flushSlot rewardWalletAddr AssetTag.base s.rewardBal.1).2,
       (flushSlot rewardWalletAddr AssetTag.quote s.rewardBal.2).2) ∧
    (excecute_pair relayer limit s).relayerBal =
      ((flushSlot relayer AssetTag.base s.relayerBal.1).2,
       (flushSlot relayer AssetTag.quote s.relayerBal.2).2) ∧
    (excecute_pair relayer limit s).rewardMsgs =
      (flushSlot rewardWalletAddr AssetTag.base s.rewardBal.1).1 ++
      (flushSlot relayer AssetTag.base s.relayerBal.1).1 ++
      (flushSlot rewardWalletAddr AssetTag.quote s.rewardBal.2).1 ++
      (flushSlot relayer AssetTag.quote s.relayerBal.2).1 := by
  have hticks : ∀ bp ∈ (find_list_match_price s.store limit).1,
      ∀ sp ∈ (find_list_match_price s.store limit).2, bp < sp := by
    intro bp hbp sp hsp
    simp only [find_list_match_price] at hbp hsp
    have hbp2 := mem_ticksDesc (List.take_subset _ _ hbp)
    have hsp2 := mem_ticksAsc (List.take_subset _ _ hsp)
    rcases List.mem_map.mp hbp2 with ⟨b, hbmem, rfl⟩
    rcases List.mem_map.mp hsp2 with ⟨o, homem, rfl⟩
    have hb := List.mem_filter.mp hbmem
    have ho := List.mem_filter.mp homem
    exact hnc b hb.1 o ho.1 (by simpa using hb.2) (by simpa using ho.2)
  have hloop : buyTickLoop s.min_quote_coin_amount limit
      (find_list_match_price s.store limit).2 (initAcc s)
      (find_list_match_price s.store limit).1 = initAcc s :=
    buyTickLoop_noop _ _ _ _ _ hticks
  simp only [excecute_pair, hloop]
  refine ⟨rfl, ?_, rfl, rfl, rfl⟩
  show (coalesce []).map _ ++ (coalesce []).map _ = []
  rfl

/-- Witness for the amended C7 at a concrete no-cross state with pending
below-threshold Executor balances: nothing is transferred and the balances
carry over. -/
theorem c7_no_cross_noop_witness :
    (excecute_pair 7 none c7wState).store = [] ∧
    (excecute_pair 7 none c7wState).traderMsgs = [] ∧
    (excecute_pair 7 none c7wState).rewardBal = (3, 4) ∧
    (excecute_pair 7 none c7wState).relayerBal = (6, 8) ∧
    (excecute_pair 7 none c7wState).rewardMsgs = [] :=
  c7_no_cross_noop 7 none c7wState (by intro b hb; simp [c7wState] at hb)

theorem ltBytes_append_one (b : List Nat) (x : Nat) : ltBytes b (b ++ [x]) = true := by
  induction b with
  | nil => rfl
  | cons y t ih => simp [ltBytes, ih]

theorem ltBytes_irrefl (b : List Nat) : ltBytes b b = false := by
  induction b with
  | nil => rfl
  | cons y t ih => simp [ltBytes, ih]

theorem mem_insertKeyAsc {x y : List Nat} {l : List (List Nat)}
    (h : x ∈ insertKeyAsc y l) : x = y ∨ x ∈ l := by
  induction l with
  | nil =>
    simp [insertKeyAsc] at h
    exact Or.inl h
  | cons z t ih =>
    simp only [insertKeyAsc] at h
    split_ifs at h with h1
    · rcases List.mem_cons.mp h with h3 | h3
      · exact Or.inl h3
      · exact Or.inr h3
    · rcases List.mem_cons.mp h with h3 | h3
      · exact Or.inr (List.mem_cons.mpr (Or.inl h3))
      · rcases ih h3 with h4 | h4
        · exact Or.inl h4
        · exact Or.inr (List.mem_cons.mpr (Or.inr h4))

theorem mem_insertKeyDesc {x y : List Nat} {l : List (List Nat)}
    (h : x ∈ insertKeyDesc y l) : x = y ∨ x ∈ l := by
  induction l with
  | nil =>
    simp [insertKeyDesc] at h
    exact Or.inl h
  | cons z t ih =>
    simp only [insertKeyDesc] at h
    split_ifs at h with h1
    · rcases List.mem_cons.mp h with h3 | h3
      · exact Or.inl h3
      · exact Or.inr h3
    · rcases List.mem_cons.mp h with h3 | h3
      · exact Or.inr (List.mem_cons.mpr (Or.inl h3))
      · rcases ih h3 with h4 | h4
        · exact Or.inl h4
        · exact Or.inr (List.mem_cons.mpr (Or.inr h4))

theorem mem_sortKeysAsc {x : List Nat} {l : List (List Nat)}
    (h : x ∈ sortKeysAsc l) : x ∈ l := by
  induction l with
  | nil => simp [sortKeysAsc] at h
  | cons y t ih =>
    have h0 : x ∈ insertKeyAsc y (sortKeysAsc t) := h
    rcases mem_insertKeyAsc h0 with h1 | h1
    · exact List.mem_cons.mpr (Or.inl h1)
    · exact List.mem_cons.mpr (Or.inr (ih h1))

theorem mem_sortKeysDesc {x : List Nat} {l : List (List Nat)}
    (h : x ∈ sortKeysDesc l) : x ∈ l := by
  induction l with
  | nil => simp [sortKeysDesc] at h
  | cons y t ih =>
    have h0 : x ∈ insertKeyDesc y (sortKeysDesc t) := h
    rcases mem_insertKeyDesc h0 with h1 | h1
    · exact List.mem_cons.mpr (Or.inl h1)
    · exact List.mem_cons.mpr (Or.inr (ih h1))

theorem mapOpt_length (f : α → Option β) (l : List α) (r : List β)
    (h : mapOpt f l = some r) : r.length = l.length := by
  induction l generalizing r with
  | nil =>
    simp only [mapOpt] at h
    cases h
    rfl
  | cons a t ih =>
    simp only [mapOpt] at h
    cases hfa : f a with
    | none => rw [hfa] at h; exact absurd h (by simp)
    | some b =>
      cases hmt : mapOpt f t with
      | none => rw [hfa, hmt] at h; exact absurd h (by simp)
      | some bs =>
        rw [hfa, hmt] at h
        cases h
        simp [ih bs hmt]

theorem selectedKeys_length (keys : List (List Nat)) (sa : Option Nat)
    (lim : Option Nat) (asc : Bool) :
    (selectedKeys keys sa lim asc).length ≤ min (lim.getD 10) 30 := by
  cases asc <;> simp only [selectedKeys] <;> exact List.length_take_le _ _

/-- C9 (amended): every paginated read returns at most
`min(requested limit, 30)` entries and defaults to limit 10 when none is
given; the start_after cursor is exclusive in both directions: the key equal
to the cursor is never visited, ascending (because `calc_range_start`
appends a byte to land strictly after it) or descending (because the range
end is exclusive). -/
theorem c9_pagination_rules :
    (∀ (keys : List (List Nat)) (orders : List Order) (sa lim : Option Nat)
      (asc : Bool) (l : List Order),
      read_orders_with_indexer keys orders sa lim asc = some l →
      l.length ≤ min (lim.getD 10) 30) ∧
    (∀ (orders : List Order) (sa lim : Option Nat) (asc : Bool) (l : List Order),
      read_orders orders sa lim asc = some l →
      l.length ≤ min (lim.getD 10) 30) ∧
    (∀ (keys : List (List Nat)) (orders : List Order) (sa : Option Nat) (asc : Bool),
      read_orders_with_indexer keys orders sa none asc =
      read_orders_with_indexer keys orders sa (some 10) asc) ∧
    (∀ (orders : List Order) (sa : Option Nat) (asc : Bool),
      read_orders orders sa none asc = read_orders orders sa (some 10) asc) ∧
    (∀ (keys : List (List Nat)) (c : Nat) (lim : Option Nat),
      u64le8 c ∉ selectedKeys keys (some c) lim true) ∧
    (∀ (keys : List (List Nat)) (c : Nat) (lim : Option Nat),
      u64le8 c ∉ selectedKeys keys (some c) lim false) := by
  refine ⟨?_, ?_, ?_, ?_, ?_, ?_⟩
  · intro keys orders sa lim asc l h
    rw [read_orders_with_indexer] at h
    rw [mapOpt_length _ _ _ h]
    exact selectedKeys_length _ _ _ _
  · intro orders sa lim asc l h
    rw [read_orders] at h
    rw [mapOpt_length _ _ _ h]
    exact selectedKeys_length _ _ _ _
  · intro keys orders sa asc
    rfl
  · intro orders sa asc
    rfl
  · intro keys c lim hmem
    simp only [selectedKeys, if_pos rfl] at hmem
    have h1 := mem_sortKeysAsc (List.take_subset _ _ hmem)
    have h2 := (List.mem_filter.mp h1).2
    simp [inRangeAsc, calc_range_start, ltBytes_append_one] at h2
  · intro keys c lim hmem
    simp only [selectedKeys] at hmem
    rw [if_neg (by simp)] at hmem
    have h1 := mem_sortKeysDesc (List.take_subset _ _ hmem)
    have h2 := (List.mem_filter.mp h1).2
    simp [inRangeDesc, calc_range_end, ltBytes_irrefl] at h2

/-- Witness for the amended C9: a one-entry index read with no limit returns
one entry, within the default bound, and the cursor key 5 is selected in
neither direction. -/
theorem c9_pagination_rules_witness :
    ([c9Order5] : List Order).length ≤ min ((none : Option Nat).getD 10) 30 ∧
    u64le8 5 ∉ selectedKeys [u64le8 5, u64le8 6] (some 5) none true ∧
    u64le8 5 ∉ selectedKeys [u64le8 5, u64le8 6] (some 5) none false :=
  ⟨c9_pagination_rules.1 [u64le8 5] [c9Order5] none none true [c9Order5] (by decide),
   c9_pagination_rules.2.2.2.2.1 [u64le8 5, u64le8 6] 5 none,
   c9_pagination_rules.2.2.2.2.2 [u64le8 5, u64le8 6] 5 none⟩

theorem find?_filter_of_imp (l : List α) (p q : α → Bool)
    (h : ∀ e, p e = true → q e = true) : (l.filter q).find? p = l.find? p := by
  induction l with
  | nil => rfl
  | cons x t ih =>
    cases hq : q x with
    | false =>
      have hp : p x = false := by
        cases hp : p x
        · rfl
        · exact absurd (h x hp) (by simp [hq])
      rw [List.filter_cons_of_neg (by simp [hq]), ih,
        List.find?_cons_of_neg _ (by simp [hp])]
    | true =>
      cases hp : p x with
      | false =>
        rw [List.filter_cons_of_pos (by simp [hq]),
          List.find?_cons_of_neg _ (by simp [hp]),
          List.find?_cons_of_neg _ (by simp [hp]), ih]
      | true =>
        rw [List.filter_cons_of_pos (by simp [hq]),
          List.find?_cons_of_pos _ (by simp [hp]),
          List.find?_cons_of_pos _ (by simp [hp])]

theorem lookupAssoc_setAssoc_other (l : List (Nat × Nat)) (k v k2 : Nat)
    (h : k2 ≠ k) : lookupAssoc (setAssoc l k v) k2 = lookupAssoc l k2 := by
  rw [lookupAssoc, setAssoc, List.find?_cons_of_neg _ (by simp [Ne.symm h]),
    find?_filter_of_imp l (fun e => e.1 = k2) (fun e => e.1 ≠ k)
      (fun e he => by
        simp only [decide_eq_true_eq] at he
        simp [he, h])]
  rfl

theorem lookupAssoc_delAssoc_other (l : List (Nat × Nat)) (k k2 : Nat)
    (h : k2 ≠ k) : lookupAssoc (delAssoc l k) k2 = lookupAssoc l k2 := by
  rw [lookupAssoc, delAssoc,
    find?_filter_of_imp l (fun e => e.1 = k2) (fun e => e.1 ≠ k)
      (fun e he => by
        simp only [decide_eq_true_eq] at he
        simp [he, h])]
  rfl

theorem mem_insertPair {l : List (Nat × Nat)} {p q : Nat × Nat} :
    q ∈ insertPair l p ↔ q = p ∨ q ∈ l := by
  by_cases h : p ∈ l
  · simp only [insertPair, if_pos h]
    constructor
    · exact fun hq => Or.inr hq
    · rintro (rfl | hq)
      · exact h
      · exact hq
  · simp only [insertPair, if_neg h]
    exact List.mem_cons

theorem mem_erasePair {l : List (Nat × Nat)} {p q : Nat × Nat} :
    q ∈ erasePair l p ↔ q ∈ l ∧ q ≠ p := by
  simp [erasePair]

theorem insertPair_nodup {l : List (Nat × Nat)} {p : Nat × Nat}
    (h : l.Nodup) : (insertPair l p).Nodup := by
  by_cases hm : p ∈ l
  · simpa [insertPair, hm] using h
  · simp [insertPair, hm, h]

theorem length_filter_erase_self (p : Nat × Nat) (l : List (Nat × Nat)) :
    l.Nodup → p ∈ l →
    ((erasePair l p).filter (fun e => e.1 = p.1)).length =
      (l.filter (fun e => e.1 = p.1)).length - 1 := by
  induction l with
  | nil => intro _ hp; cases hp
  | cons q t ih =>
    intro hnd hp
    rcases List.mem_cons.mp hp with rfl | hpt
    · have hnt : p ∉ t := (List.nodup_cons.mp hnd).1
      have h1 : erasePair (p :: t) p = erasePair t p := by
        simp [erasePair]
      have h2 : erasePair t p = t :=
        List.filter_eq_self.mpr (fun e he => by
          simp only [decide_eq_true_eq]
          intro hcontra
          subst hcontra
          exact hnt he)
      rw [h1, h2, List.filter_cons_of_pos (by simp)]
      simp
    · have hq : q ≠ p := by
        rintro rfl
        exact (List.nodup_cons.mp hnd).1 hpt
      have h1 : erasePair (q :: t) p = q :: erasePair t p := by
        simp [erasePair, hq]
      have hpos : 0 < (t.filter (fun e => e.1 = p.1)).length := by
        have hm : p ∈ t.filter (fun e => e.1 = p.1) :=
          List.mem_filter.mpr ⟨hpt, by simp⟩
        exact List.length_pos_of_mem hm
      have ih2 := ih (List.nodup_cons.mp hnd).2 hpt
      rw [h1]
      by_cases hqk : q.1 = p.1
      · rw [List.filter_cons_of_pos (by simp [hqk]),
          List.filter_cons_of_pos (by simp [hqk])]
        simp only [List.length_cons]
        omega
      · rw [List.filter_cons_of_neg (by simp [hqk]),
          List.filter_cons_of_neg (by simp [hqk])]
        exact ih2

theorem filter_erase_of_ne (p : Nat × Nat) (pk : Nat) (l : List (Nat × Nat))
    (h : p.1 ≠ pk) :
    (erasePair l p).filter (fun e => e.1 = pk) = l.filter (fun e => e.1 = pk) := by
  induction l with
  | nil => rfl
  | cons q t ih =>
    by_cases hq : q = p
    · subst hq
      have h1 : erasePair (q :: t) q = erasePair t q := by simp [erasePair]
      rw [h1, ih, List.filter_cons_of_neg (by simp [h])]
    · have h1 : erasePair (q :: t) p = q :: erasePair t p := by
        simp [erasePair, hq]
      rw [h1]
      by_cases hqk : q.1 = pk
      · rw [List.filter_cons_of_pos (by simp [hqk]),
          List.filter_cons_of_pos (by simp [hqk]), ih]
      · rw [List.filter_cons_of_neg (by simp [hqk]),
          List.filter_cons_of_neg (by simp [hqk]), ih]

theorem putOrder_fresh (l : List Order) (o : Order)
    (h : ∀ x ∈ l, x.order_id ≠ o.order_id) : putOrder l o = o :: l := by
  rw [putOrder, List.filter_eq_self.mpr]
  intro x hx
  simp [h x hx]

theorem eq_of_mem_nodup_ids (l : List Order) :
    (l.map (fun o => o.order_id)).Nodup →
    ∀ a ∈ l, ∀ b ∈ l, a.order_id = b.order_id → a = b := by
  induction l with
  | nil => intro _ a ha; cases ha
  | cons x t ih =>
    intro hnd a ha b hb hab
    simp only [List.map_cons, List.nodup_cons] at hnd
    rcases List.mem_cons.mp ha with rfl | hat
    · rcases List.mem_cons.mp hb with rfl | hbt
      · rfl
      · have h1 : b.order_id ∈ t.map (fun o => o.order_id) :=
          List.mem_map.mpr ⟨b, hbt, rfl⟩
        rw [← hab] at h1
        exact absurd h1 hnd.1
    · rcases List.mem_cons.mp hb with rfl | hbt
      · have h1 : a.order_id ∈ t.map (fun o => o.order_id) :=
          List.mem_map.mpr ⟨a, hat, rfl⟩
        rw [hab] at h1
        exact absurd h1 hnd.1
      · exact ih hnd.2 a hat b hbt hab

theorem findOrder_none_iff (l : List Order) (id : Nat) :
    findOrder l id = none ↔ ∀ x ∈ l, x.order_id ≠ id := by
  simp [findOrder, List.find?_eq_none]

theorem findOrder_mem {l : List Order} {id : Nat} {o : Order}
    (h : findOrder l id = some o) : o ∈ l ∧ o.order_id = id := by
  refine ⟨List.mem_of_find?_eq_some h, ?_⟩
  have := List.find?_some h
  simpa using this

theorem lookupAssoc_of_getD_pos {l : List (Nat × Nat)} {k : Nat}
    (h : 0 < (lookupAssoc l k).getD 0) :
    lookupAssoc l k = some ((lookupAssoc l k).getD 0) := by
  cases hk : lookupAssoc l k with
  | none => rw [hk] at h; simp at h
  | some v => rfl

theorem idxInv_init : IdxInv ⟨[], [], [], [], []⟩ := by
  refine ⟨?_, ?_, ?_, ?_, ?_⟩ <;> simp [lookupAssoc, IdxState.ticks]

theorem idxInv_submit (s : IdxState) (o : Order) (hInv : IdxInv s)
    (hfresh : findOrder s.orders o.order_id = none) :
    IdxInv (store_order s o true) := by
  obtain ⟨hc, hz, he, hno, hnp⟩ := hInv
  have hfreshAll : ∀ x ∈ s.orders, x.order_id ≠ o.order_id :=
    (findOrder_none_iff _ _).mp hfresh
  have hnotin : (tickKey o, o.order_id) ∉ s.byPrice := by
    intro hmem
    rcases (he _ _).mp hmem with ⟨o2, ho2, hid, _⟩
    exact hfreshAll o2 ho2 hid
  have hput : putOrder s.orders o = o :: s.orders := putOrder_fresh _ _ hfreshAll
  have hins : insertPair s.byPrice (tickKey o, o.order_id) =
      (tickKey o, o.order_id) :: s.byPrice := by
    simp [insertPair, hnotin]
  refine ⟨?_, ?_, ?_, ?_, ?_⟩
  · intro pk
    simp only [store_order, hins]
    by_cases hpk : pk = tickKey o
    · subst hpk
      rw [lookupAssoc_setAssoc_self, List.filter_cons_of_pos (by simp)]
      simp [hc (tickKey o)]
    · rw [lookupAssoc_setAssoc_other _ _ _ _ hpk,
        List.filter_cons_of_neg (by simp; exact fun h => hpk h.symm)]
      exact hc pk
  · intro pk
    simp only [store_order]
    by_cases hpk : pk = tickKey o
    · subst hpk
      rw [lookupAssoc_setAssoc_self]
      simp
    · rw [lookupAssoc_setAssoc_other _ _ _ _ hpk]
      exact hz pk
  · intro pk id
    simp only [store_order, hins, hput]
    constructor
    · intro hmem
      rcases List.mem_cons.mp hmem with heq | hmem2
      · rcases Prod.mk.injEq .. ▸ heq with ⟨h1, h2⟩
        exact ⟨o, List.mem_cons_self o s.orders, h2.symm ▸ rfl, h1.symm ▸ rfl⟩
      · rcases (he pk id).mp hmem2 with ⟨o2, ho2, hid, htk⟩
        exact ⟨o2, List.mem_cons.mpr (Or.inr ho2), hid, htk⟩
    · rintro ⟨o2, ho2, hid, htk⟩
      rcases List.mem_cons.mp ho2 with rfl | ho2t
      · exact List.mem_cons.mpr (Or.inl (by rw [← hid, ← htk]))
      · exact List.mem_cons.mpr (Or.inr ((he pk id).mpr ⟨o2, ho2t, hid, htk⟩))
  · simp only [store_order, hput, List.map_cons, List.nodup_cons]
    refine ⟨?_, hno⟩
    intro hmem
    rcases List.mem_map.mp hmem with ⟨x, hx, hxid⟩
    exact hfreshAll x hx hxid
  · simp only [store_order, hins]
    exact List.nodup_cons.mpr ⟨hnotin, hnp⟩

theorem idxInv_fill (s : IdxState) (o o2 : Order) (hInv : IdxInv s)
    (hfound : findOrder s.orders o.order_id = some o)
    (hid : o2.order_id = o.order_id) (hbid : o2.bidder_addr = o.bidder_addr)
    (htk : tickKey o2 = tickKey o) :
    IdxInv (store_order s o2 false) := by
  obtain ⟨hc, hz, he, hno, hnp⟩ := hInv
  have homem : o ∈ s.orders := (findOrder_mem hfound).1
  have hmemP : (tickKey o, o.order_id) ∈ s.byPrice :=
    (he _ _).mpr ⟨o, homem, rfl, rfl⟩
  have hins : insertPair s.byPrice (tickKey o2, o2.order_id) = s.byPrice := by
    simp only [insertPair]
    rw [htk, hid, if_pos hmemP]
  have hcpos : 0 < (lookupAssoc s.ticks (tickKey o)).getD 0 := by
    rw [hc]
    exact List.length_pos_of_mem (List.mem_filter.mpr ⟨hmemP, by simp⟩)
  have hlk : lookupAssoc s.ticks (tickKey o) =
      some ((lookupAssoc s.ticks (tickKey o)).getD 0) :=
    lookupAssoc_of_getD_pos hcpos
  have hset : ∀ pk, lookupAssoc (setAssoc s.ticks (tickKey o2)
      ((lookupAssoc s.ticks (tickKey o2)).getD 0 + if false then 1 else 0)) pk =
      lookupAssoc s.ticks pk := by
    intro pk
    by_cases hpk : pk = tickKey o2
    · subst hpk
      rw [lookupAssoc_setAssoc_self]
      have hif : (if false then 1 else 0) = 0 := rfl
      rw [hif, Nat.add_zero, htk]
      exact hlk.symm
    · exact lookupAssoc_setAssoc_other _ _ _ _ hpk
  refine ⟨?_, ?_, ?_, ?_, ?_⟩
  · intro pk
    simp only [store_order, hins]
    rw [hset pk]
    exact hc pk
  · intro pk
    simp only [store_order]
    rw [hset pk]
    exact hz pk
  · intro pk id
    simp only [store_order, hins, putOrder]
    constructor
    · intro hmem
      rcases (he pk id).mp hmem with ⟨o3, ho3, h3id, h3tk⟩
      by_cases hcase : o3.order_id = o.order_id
      · have ho3o : o3 = o := eq_of_mem_nodup_ids s.orders hno o3 ho3 o homem hcase
        subst ho3o
        refine ⟨o2, List.mem_cons_self _ _, ?_, ?_⟩
        · rw [hid, h3id]
        · rw [htk, h3tk]
      · refine ⟨o3, List.mem_cons.mpr (Or.inr ?_), h3id, h3tk⟩
        exact List.mem_filter.mpr ⟨ho3, by simp [hid, hcase]⟩
    · rintro ⟨o3, ho3, h3id, h3tk⟩
      rcases List.mem_cons.mp ho3 with rfl | ho3t
      · exact (he pk id).mpr ⟨o, homem, by rw [← hid]; exact h3id,
          by rw [← htk]; exact h3tk⟩
      · exact (he pk id).mpr ⟨o3, List.mem_of_mem_filter ho3t, h3id, h3tk⟩
  · simp only [store_order, putOrder, List.map_cons, List.nodup_cons]
    constructor
    · intro hmem
      rcases List.mem_map.mp hmem with ⟨x, hx, hxid⟩
      have hxne : x.order_id ≠ o2.order_id := by
        have := (List.mem_filter.mp hx).2
        simpa using this
      exact hxne hxid
    · exact List.Nodup.sublist (List.Sublist.map _ (List.filter_sublist _)) hno
  · simp only [store_order, hins]
    exact hnp

theorem idxInv_remove (s : IdxState) (o : Order) (hInv : IdxInv s)
    (hfound : findOrder s.orders o.order_id = some o) :
    IdxInv (remove_order s o) := by
  obtain ⟨hc, hz, he, hno, hnp⟩ := hInv
  have homem : o ∈ s.orders := (findOrder_mem hfound).1
  have hmemP : (tickKey o, o.order_id) ∈ s.byPrice :=
    (he _ _).mpr ⟨o, homem, rfl, rfl⟩
  have hcpos : 0 < (lookupAssoc s.ticks (tickKey o)).getD 0 := by
    rw [hc]
    exact List.length_pos_of_mem (List.mem_filter.mpr ⟨hmemP, by simp⟩)
  have hcount : ((erasePair s.byPrice (tickKey o, o.order_id)).filter
      (fun e => e.1 = tickKey o)).length =
      (s.byPrice.filter (fun e => e.1 = tickKey o)).length - 1 :=
    length_filter_erase_self (tickKey o, o.order_id) s.byPrice hnp hmemP
  refine ⟨?_, ?_, ?_, ?_, ?_⟩
  · intro pk
    simp only [remove_order, if_pos hcpos]
    by_cases hpk : pk = tickKey o
    · subst hpk
      split_ifs with h1
      · rw [lookupAssoc_setAssoc_self, hcount, ← hc (tickKey o)]
        rfl
      · rw [lookupAssoc_delAssoc_self, hcount, ← hc (tickKey o)]
        simp only [Option.getD_none]
        omega
    · have hne2 : (tickKey o, o.order_id).1 ≠ pk := fun h => hpk h.symm
      rw [filter_erase_of_ne _ _ _ hne2]
      split_ifs with h1
      · rw [lookupAssoc_setAssoc_other _ _ _ _ hpk]
        exact hc pk
      · rw [lookupAssoc_delAssoc_other _ _ _ hpk]
        exact hc pk
  · intro pk
    simp only [remove_order, if_pos hcpos]
    by_cases hpk : pk = tickKey o
    · subst hpk
      split_ifs with h1
      · rw [lookupAssoc_setAssoc_self]
        intro hcontra
        rw [Option.some_inj] at hcontra
        omega
      · rw [lookupAssoc_delAssoc_self]
        simp
    · split_ifs with h1
      · rw [lookupAssoc_setAssoc_other _ _ _ _ hpk]
        exact hz pk
      · rw [lookupAssoc_delAssoc_other _ _ _ hpk]
        exact hz pk
  · intro pk id
    simp only [remove_order, delOrder]
    constructor
    · intro hmem
      have hmem1 := mem_erasePair.mp hmem
      rcases (he pk id).mp hmem1.1 with ⟨o3, ho3, h3id, h3tk⟩
      have h3ne : o3.order_id ≠ o.order_id := by
        intro hcontra
        have ho3o : o3 = o := eq_of_mem_nodup_ids s.orders hno o3 ho3 o homem hcontra
        subst ho3o
        exact hmem1.2 (by rw [← h3id, ← h3tk])
      exact ⟨o3, List.mem_filter.mpr ⟨ho3, by simpa using h3ne⟩, h3id, h3tk⟩
    · rintro ⟨o3, ho3, h3id, h3tk⟩
      have ho3s : o3 ∈ s.orders := List.mem_of_mem_filter ho3
      have h3ne : o3.order_id ≠ o.order_id := by
        have := (List.mem_filter.mp ho3).2
        simpa using this
      refine mem_erasePair.mpr ⟨(he pk id).mpr ⟨o3, ho3s, h3id, h3tk⟩, ?_⟩
      intro hcontra
      rw [Prod.mk.injEq] at hcontra
      exact h3ne (by rw [h3id, hcontra.2])
  · simp only [remove_order, delOrder]
    exact List.Nodup.sublist (List.Sublist.map _ (List.filter_sublist _)) hno
  · simp only [remove_order]
    exact List.Nodup.filter _ hnp

theorem idxInv_of_reach (s : IdxState) (hs : Reach s) : IdxInv s := by
  induction hs with
  | init => exact idxInv_init
  | submit s o _ hfresh ih => exact idxInv_submit s o ih hfresh
  | fill s o o2 _ hfound hid hbid htk ih => exact idxInv_fill s o o2 ih hfound hid hbid htk
  | removeStep s o _ hfound ih => exact idxInv_remove s o ih hfound

/-- C8 (amended): in every state reachable by the three store mutations of
this repository (fresh insert, re-store of a stored order with unchanged id,
bidder and price, removal of a stored order), the tick counter at a price
key equals the number of by-price entries at that key and no zero counter is
stored (the entry is deleted at zero); and removing a stored order removes
its order row, its by-price entry and its by-bidder entry and decrements the
tick counter, deleting it when it reaches zero.  The by-direction family is
not maintained (see the counterexample). -/
theorem c8_tick_invariant (s : IdxState) (hs : Reach s) :
    (∀ pk, (lookupAssoc s.ticks pk).getD 0 =
        (s.byPrice.filter (fun e => e.1 = pk)).length ∧
      lookupAssoc s.ticks pk ≠ some 0) ∧
    (∀ o, findOrder s.orders o.order_id = some o →
      findOrder (remove_order s o).orders o.order_id = none ∧
      (tickKey o, o.order_id) ∉ (remove_order s o).byPrice ∧
      (o.bidder_addr, o.order_id) ∉ (remove_order s o).byBidder ∧
      (lookupAssoc (remove_order s o).ticks (tickKey o)).getD 0 =
        (lookupAssoc s.ticks (tickKey o)).getD 0 - 1 ∧
      ((lookupAssoc s.ticks (tickKey o)).getD 0 = 1 →
        lookupAssoc (remove_order s o).ticks (tickKey o) = none)) := by
  obtain ⟨hc, hz, he, hno, hnp⟩ := idxInv_of_reach s hs
  refine ⟨fun pk => ⟨hc pk, hz pk⟩, ?_⟩
  intro o hfound
  exact ⟨findOrder_delOrder_self _ _, not_mem_erasePair _ _,
    not_mem_erasePair _ _, remove_order_tick_dec s o,
    remove_order_tick_zero s o⟩

/-- Witness for the amended C8 at the state reached by submitting one order
into the empty store: the counter at the order's tick equals the by-price
count and is not a stored zero. -/
theorem c8_tick_invariant_witness :
    (lookupAssoc (store_order ⟨[], [], [], [], []⟩ c8Order true).ticks
        (tickKey c8Order)).getD 0 =
      ((store_order ⟨[], [], [], [], []⟩ c8Order true).byPrice.filter
        (fun e => e.1 = tickKey c8Order)).length ∧
    lookupAssoc (store_order ⟨[], [], [], [], []⟩ c8Order true).ticks
      (tickKey c8Order) ≠ some 0 :=
  (c8_tick_invariant _ (Reach.submit _ c8Order Reach.init rfl)).1 (tickKey c8Order)
